import Mathlib

/-!
Verification of the QuickUMLS install pipeline (`quickumls/install.py`).

The development shallowly embeds the three components of the pipeline:
the semantic-type loader `get_semantic_types`, the vocabulary extractor
`get_mrconso_iterator` / `extract_from_mrconso`, and the index builder
`parse_and_encode_ngrams`.  Input files are modelled as lists of lines
(strings without their trailing newline); the external store writers are
modelled by their insertion logs; Python exceptions (KeyError,
ZeroDivisionError) are modelled with `Except` / error fields.
-/

namespace QuickUMLS

/-! ## Python string primitives -/

/-- Python whitespace test for `str.strip` (space, tab, LF, CR, VT, FF). -/
def isPyWhite (c : Char) : Bool :=
  c == ' ' || c == '\t' || c == '\n' || c == '\r' || c == '\x0b' || c == '\x0c'

/-- Python `str.strip()`: drop leading and trailing whitespace. -/
def pyStrip (s : String) : String :=
  ⟨((s.data.dropWhile isPyWhite).reverse.dropWhile isPyWhite).reverse⟩

/-- Python `str.lower()`, modelled as per-character lowercasing; the strings
this development exercises only contain ASCII uppercase letters, on which
`Char.toLower` agrees with Python. -/
def pyLower (s : String) : String :=
  ⟨s.data.map Char.toLower⟩

/-- Splitting a character list at every pipe, Python `str.split` style:
the empty input gives one empty field. -/
def splitPipe : List Char → List (List Char)
  | [] => [[]]
  | c :: rest =>
    let r := splitPipe rest
    if c = '|' then [] :: r
    else
      match r with
      | [] => [[c]]
      | f :: fs => (c :: f) :: fs

/-- The field list of one source line: `ln.strip().split('|')`. -/
def pyFields (ln : String) : List String :=
  (splitPipe (pyStrip ln).data).map (fun cs => ⟨cs⟩)

/-- Python `dict(zip(headers, fields))`, kept as the zipped pair list. -/
def pyDictOfLine (headers : List String) (ln : String) : List (String × String) :=
  List.zip headers (pyFields ln)

/-- Lookup in a Python dict built by `dict(zip(...))`: with duplicate keys the
last assignment wins, hence the reverse. `none` models a KeyError. -/
def pyGet (d : List (String × String)) (k : String) : Option String :=
  (d.reverse).lookup k

/-! ## Modelled external collaborators -/

/-- Modelled from the spec: `countlines` (toolbox, outside the visible
source) is "a precomputed total line count of the source file". -/
def countlines (lines : List String) : Nat :=
  lines.length

/-- Modelled from the spec: the external `unidecode` transliteration routine
normalizes "unicode strings to their closest ASCII representation"; only the
accented Latin letters this development exercises are mapped. -/
def unidecodeChar (c : Char) : Char :=
  if c = 'é' || c = 'è' || c = 'ê' || c = 'ë' then 'e'
  else if c = 'É' || c = 'È' || c = 'Ê' || c = 'Ë' then 'E'
  else if c = 'á' || c = 'à' || c = 'â' then 'a'
  else if c = 'Á' || c = 'À' || c = 'Â' then 'A'
  else c

/-- Modelled from the spec: `unidecode` applied to a whole string. -/
def unidecode (s : String) : String :=
  ⟨s.data.map unidecodeChar⟩

/-! ## Semantic-type loader (`get_semantic_types`) -/

/-- Python `sem_types.setdefault(cui, []).append(sty)` on an
insertion-ordered association list. -/
def assocAppend (m : List (String × List String)) (k v : String) :
    List (String × List String) :=
  match m with
  | [] => [(k, [v])]
  | (k', vs) :: rest =>
    if k' = k then (k', vs ++ [v]) :: rest else (k', vs) :: assocAppend rest k v

/-- Lookup in the semantic-type map; `none` models a KeyError. -/
def assocLookup (m : List (String × List String)) (k : String) :
    Option (List String) :=
  match m with
  | [] => none
  | (k', vs) :: rest => if k' = k then some vs else assocLookup rest k

/-- One line of the `get_semantic_types` loop: read `cui` and `sty` from the
zipped dict (KeyError when a field fell off a short line) and append. -/
def styStep (headers : List String) (m : List (String × List String))
    (ln : String) : Except String (List (String × List String)) :=
  match pyGet (pyDictOfLine headers ln) "cui" with
  | none => .error "KeyError: cui"
  | some cui =>
    match pyGet (pyDictOfLine headers ln) "sty" with
    | none => .error "KeyError: sty"
    | some sty => .ok (assocAppend m cui sty)

/-- The loader loop over all lines, threading the map. -/
def styFold (headers : List String) (m : List (String × List String)) :
    List String → Except String (List (String × List String))
  | [] => .ok m
  | ln :: rest =>
    match styStep headers m ln with
    | .error e => .error e
    | .ok m' => styFold headers m' rest

/-- Embedding of `get_semantic_types(path, headers)`. -/
def get_semantic_types (headers : List String) (lines : List String) :
    Except String (List (String × List String)) :=
  styFold headers [] lines

/-! ## Vocabulary extractor (`get_mrconso_iterator`, `extract_from_mrconso`) -/

/-- A transient term record, one per qualifying vocabulary row: the tuple
`(concept_text, cui, sem_types[cui], sab, tty, preferred)` yielded by
`extract_from_mrconso`. -/
structure TermRecord where
  term : String
  cui : String
  stys : List String
  sab : String
  tty : String
  preferred : Nat
deriving DecidableEq

/-- The optional transforms of lines 82-86 of the source: lowercase folding
first, unicode normalization second, each under its flag. -/
def applyCaseUnicode (lowercase normalizeUnicode : Bool) (s : String) : String :=
  let s1 := if lowercase then pyLower s else s
  if normalizeUnicode then unidecode s1 else s1

/-- The full treatment of the raw `str` field: `content['str'].strip()`
followed by the optional transforms. -/
def termText (lowercase normalizeUnicode : Bool) (raw : String) : String :=
  applyCaseUnicode lowercase normalizeUnicode (pyStrip raw)

/-- One line of `get_mrconso_iterator`: split and zip the line, read its
`lat` field (KeyError when absent), skip the row (`ok none`) when the
language differs, otherwise yield the content dict. -/
def iterStep (headers : List String) (lang : String) (ln : String) :
    Except String (Option (List (String × String))) :=
  match pyGet (pyDictOfLine headers ln) "lat" with
  | none => .error "KeyError: lat"
  | some lat =>
    if lat = lang then .ok (some (pyDictOfLine headers ln)) else .ok none

/-- The per-row body of `extract_from_mrconso` (lines 76-88): read the
consumed fields in source order, compute the preferred flag, strip and
transform the surface text, then join against the semantic-type map
(KeyError aborts when the cui is absent). -/
def extractContent (lowercase normalizeUnicode : Bool)
    (semTypes : List (String × List String))
    (content : List (String × String)) : Except String TermRecord :=
  match pyGet content "str" with
  | none => .error "KeyError: str"
  | some rawStr =>
    match pyGet content "cui" with
    | none => .error "KeyError: cui"
    | some cui =>
      match pyGet content "sab" with
      | none => .error "KeyError: sab"
      | some sab =>
        match pyGet content "tty" with
        | none => .error "KeyError: tty"
        | some tty =>
          match pyGet content "ispref" with
          | none => .error "KeyError: ispref"
          | some ispref =>
            let preferred := if ispref = "Y" then 1 else 0
            let text := termText lowercase normalizeUnicode rawStr
            match assocLookup semTypes cui with
            | none => .error ("KeyError: " ++ cui)
            | some stys => .ok ⟨text, cui, stys, sab, tty, preferred⟩

/-- The mutable state of the extraction loop: the yielded-row counter `i`,
the records yielded so far, the progress status lines printed so far (as
pairs of the counter value and the printed completion fraction), and the
pending exception, if one was raised (a raised exception ends the run, so
later steps leave the state untouched). -/
structure ExtractState where
  i : Nat
  records : List TermRecord
  progress : List (Nat × ℚ)
  err : Option String
deriving DecidableEq

/-- One iteration of the `for content in mrconso_iterator` loop, driven by
one source line.  A skipped line (language mismatch) changes nothing; a
yielded line first increments `i` and prints the status line when
`i % 100000 == 0` (the division `i / total` cannot raise there because a
status line requires `i ≥ 100000` yielded rows, hence `total ≥ 100000`),
and only then extracts the fields, so an extraction KeyError still keeps
the incremented counter and the printed status. -/
def extractStep (headers : List String) (lang : String)
    (lowercase normalizeUnicode : Bool) (semTypes : List (String × List String))
    (total : Nat) (st : ExtractState) (ln : String) : ExtractState :=
  if st.err.isSome then st
  else
    match iterStep headers lang ln with
    | .error e => { st with err := some e }
    | .ok none => st
    | .ok (some content) =>
      let i := st.i + 1
      let progress :=
        if i % 100000 = 0 then st.progress ++ [(i, (i : ℚ) / (total : ℚ))]
        else st.progress
      match extractContent lowercase normalizeUnicode semTypes content with
      | .error e => { st with i := i, progress := progress, err := some e }
      | .ok r =>
        { st with i := i, progress := progress, records := st.records ++ [r] }

/-- The outcome of running `extract_from_mrconso` over the vocabulary lines:
the loop state at the end plus whether the final COMPLETED summary line was
printed.  A row exception propagates to the consumer before the summary
code runs; with no row exception the summary itself evaluates `i / total`,
which raises ZeroDivisionError exactly when the file is empty. -/
structure ExtractResult where
  i : Nat
  records : List TermRecord
  progress : List (Nat × ℚ)
  rowError : Option String
  summaryEmitted : Bool
  summaryError : Option String
deriving DecidableEq

/-- Embedding of the streaming part of `extract_from_mrconso`, given an
already-loaded semantic-type map. -/
def extractRows (headers : List String) (lang : String)
    (lowercase normalizeUnicode : Bool) (semTypes : List (String × List String))
    (lines : List String) : ExtractResult :=
  let total := countlines lines
  let st := List.foldl (extractStep headers lang lowercase normalizeUnicode semTypes total)
    ⟨0, [], [], none⟩ lines
  if st.err.isSome then
    ⟨st.i, st.records, st.progress, st.err, false, none⟩
  else if total = 0 then
    ⟨st.i, st.records, st.progress, none, false, some "ZeroDivisionError"⟩
  else
    ⟨st.i, st.records, st.progress, none, true, none⟩

/-- Embedding of the whole of `extract_from_mrconso`: load the semantic-type
map first (its KeyError aborts before any vocabulary row is read), then
stream the vocabulary table. -/
def extract_from_mrconso (mrconsoHeaders mrstyHeaders : List String)
    (lang : String) (lowercase normalizeUnicode : Bool)
    (mrstyLines mrconsoLines : List String) : Except String ExtractResult :=
  match get_semantic_types mrstyHeaders mrstyLines with
  | .error e => .error e
  | .ok semTypes =>
    .ok (extractRows mrconsoHeaders lang lowercase normalizeUnicode semTypes mrconsoLines)

/-! ## Index builder (`parse_and_encode_ngrams`) -/

/-- One entry of the semantic-type store insertion log:
`cuisty_db.insert(term, cui, stys, preferred)`. -/
structure CuiStyInsert where
  term : String
  cui : String
  stys : List String
  preferred : Nat
deriving DecidableEq

/-- The three store writers, modelled by their insertion logs, plus the
in-memory dedup set `simstring_terms` (a Python set: only membership is
observable, so it is kept as a list of the added elements). -/
structure Stores where
  ssInserts : List String
  simstringTerms : List String
  cuistyInserts : List CuiStyInsert
  cuiptInserts : List (String × String)
deriving DecidableEq

/-- The preferred-term condition of line 120 of the source:
`preferred == 1 and sab == "MTH" and tty == "PN"`. -/
def qualifiesPreferred (r : TermRecord) : Bool :=
  r.preferred == 1 && r.sab == "MTH" && r.tty == "PN"

/-- The body of the builder loop, one term record per iteration: dedup-insert
into the similarity index, unconditionally insert into the semantic-type
store, conditionally insert into the preferred-term store. -/
def builderStep (savePreferred : Bool) (st : Stores) (r : TermRecord) : Stores :=
  let st1 :=
    if r.term ∈ st.simstringTerms then st
    else { st with ssInserts := st.ssInserts ++ [r.term],
                   simstringTerms := r.term :: st.simstringTerms }
  let st2 := { st1 with cuistyInserts := st1.cuistyInserts ++ [⟨r.term, r.cui, r.stys, r.preferred⟩] }
  if savePreferred && qualifiesPreferred r then
    { st2 with cuiptInserts := st2.cuiptInserts ++ [(r.cui, r.term)] }
  else st2

/-- Embedding of `parse_and_encode_ngrams` over an already-extracted record
stream; `savePreferred` models `cuipt_dir is not None`. -/
def parse_and_encode_ngrams (savePreferred : Bool) (records : List TermRecord) : Stores :=
  List.foldl (builderStep savePreferred) ⟨[], [], [], []⟩ records

/-- Modelled from the spec: the Preferred-Term Store Writer (toolbox
`CuiPreferredTermDB`, outside the visible source) maps a concept identifier
to a single term, each insertion "overwriting any prior entry for that
identifier", so its final view of the insertion log is last-write-wins. -/
def cuiptFinal (inserts : List (String × String)) (cui : String) : Option String :=
  (inserts.reverse).lookup cui

/-- The composed pipeline: the builder consumes the extractor's lazy
sequence record by record, so each yielded record is fully dispatched to
the stores before the next line is read, and on a mid-stream exception the
stores hold exactly the records yielded before the aborting row.  The pair
is the final store state and the extraction outcome. -/
def pipelineRun (headers : List String) (lang : String)
    (lowercase normalizeUnicode savePreferred : Bool)
    (semTypes : List (String × List String)) (lines : List String) :
    Stores × ExtractResult :=
  let er := extractRows headers lang lowercase normalizeUnicode semTypes lines
  (parse_and_encode_ngrams savePreferred er.records, er)

/-! ## Spec-side description of the dedup order -/

/-- First-occurrence order of the distinct elements of a list, relative to a
set of already-seen elements; this is the spec's "first-occurrence order of
distinct surface forms". -/
def firstOccurrences (seen : List String) : List String → List String
  | [] => []
  | t :: ts =>
    if t ∈ seen then firstOccurrences seen ts
    else t :: firstOccurrences (t :: seen) ts

/-- The ordered `sty` column of the semantic-type source table restricted to
one concept identifier: the parsed `(cui, sty)` pairs of each line, in file
order, duplicates preserved. -/
def parseSty (headers : List String) (ln : String) : Option (String × String) :=
  match pyGet (pyDictOfLine headers ln) "cui", pyGet (pyDictOfLine headers ln) "sty" with
  | some c, some sv => some (c, sv)
  | _, _ => none

/-- The sequence of `sty` values carried by one identifier in the source
table, in file order. -/
def styColumn (headers : List String) (lines : List String) (cui : String) :
    List String :=
  lines.filterMap (fun ln =>
    match parseSty headers ln with
    | some (c, sv) => if c = cui then some sv else none
    | none => none)

/-- How the loader extends an existing entry: appended codes accumulate after
any codes already present, a fresh identifier enters only when its column is
nonempty. -/
def styExtend (o : Option (List String)) (l : List String) : Option (List String) :=
  match o with
  | some vs => some (vs ++ l)
  | none => if l = [] then none else some l

/-- The progress list after a yielded row, written out. -/
def progressAfter (total : Nat) (st : ExtractState) : List (Nat × ℚ) :=
  if (st.i + 1) % 100000 = 0 then
    st.progress ++ [(st.i + 1, ((st.i + 1 : Nat) : ℚ) / (total : ℚ))]
  else st.progress

/-- The status line printed when the yielded-row counter reaches its k-th
multiple of 100,000: the counter value and the completion fraction against
the precomputed total line count. -/
def progressMark (total : Nat) (k : Nat) : Nat × ℚ :=
  ((k + 1) * 100000, (((k + 1) * 100000 : Nat) : ℚ) / (total : ℚ))

/-! ## Helper lemmas: builder -/

theorem builderStep_ssInserts (sp : Bool) (st : Stores) (r : TermRecord) :
    (builderStep sp st r).ssInserts =
      if r.term ∈ st.simstringTerms then st.ssInserts
      else st.ssInserts ++ [r.term] := by
  unfold builderStep
  by_cases h : r.term ∈ st.simstringTerms <;> simp only [h, if_pos, if_neg, ite_true,
    ite_false, not_false_iff] <;> split <;> rfl

theorem builderStep_simstringTerms (sp : Bool) (st : Stores) (r : TermRecord) :
    (builderStep sp st r).simstringTerms =
      if r.term ∈ st.simstringTerms then st.simstringTerms
      else r.term :: st.simstringTerms := by
  unfold builderStep
  by_cases h : r.term ∈ st.simstringTerms <;> simp only [h, if_pos, if_neg, ite_true,
    ite_false, not_false_iff] <;> split <;> rfl

theorem builderStep_cuistyInserts (sp : Bool) (st : Stores) (r : TermRecord) :
    (builderStep sp st r).cuistyInserts =
      st.cuistyInserts ++ [⟨r.term, r.cui, r.stys, r.preferred⟩] := by
  unfold builderStep
  by_cases h : r.term ∈ st.simstringTerms <;> simp only [h, if_pos, if_neg, ite_true,
    ite_false, not_false_iff] <;> split <;> rfl

theorem builderStep_cuiptInserts (sp : Bool) (st : Stores) (r : TermRecord) :
    (builderStep sp st r).cuiptInserts =
      if sp && qualifiesPreferred r then st.cuiptInserts ++ [(r.cui, r.term)]
      else st.cuiptInserts := by
  unfold builderStep
  by_cases h : r.term ∈ st.simstringTerms <;>
    by_cases h2 : (sp && qualifiesPreferred r) = true <;>
      simp [h, h2]

theorem foldl_builderStep_ssInserts (sp : Bool) :
    ∀ (rs : List TermRecord) (st : Stores),
      (List.foldl (builderStep sp) st rs).ssInserts =
        st.ssInserts ++ firstOccurrences st.simstringTerms (rs.map (fun r => r.term))
  | [], st => by simp [firstOccurrences]
  | r :: rest, st => by
    rw [List.map_cons, List.foldl_cons, foldl_builderStep_ssInserts sp rest]
    by_cases h : r.term ∈ st.simstringTerms
    · rw [builderStep_ssInserts, builderStep_simstringTerms, if_pos h, if_pos h,
        firstOccurrences, if_pos h]
    · rw [builderStep_ssInserts, builderStep_simstringTerms, if_neg h, if_neg h,
        firstOccurrences, if_neg h, List.append_assoc]
      rfl

theorem firstOccurrences_count (t : String) :
    ∀ (l : List String) (seen : List String),
      (firstOccurrences seen l).count t = if t ∈ l ∧ t ∉ seen then 1 else 0
  | [], seen => by simp [firstOccurrences]
  | a :: l, seen => by
    by_cases ha : a ∈ seen
    · rw [firstOccurrences, if_pos ha, firstOccurrences_count t l seen]
      by_cases hts : t ∈ seen
      · simp [hts]
      · have hta : t ≠ a := fun he => hts (he ▸ ha)
        simp [List.mem_cons, hta, hts]
    · rw [firstOccurrences, if_neg ha, List.count_cons, firstOccurrences_count t l (a :: seen)]
      by_cases hta : t = a
      · subst hta
        simp [List.mem_cons, ha]
      · simp only [List.mem_cons, hta, false_or, beq_iff_eq, if_neg hta]
        by_cases htl : t ∈ l <;> by_cases hts : t ∈ seen <;>
          simp [htl, hts, hta, Ne.symm hta]

/-- C1: each distinct surface text in the consumed record stream causes
exactly one similarity-index insertion, and the sequence of insertions is
exactly the first-occurrence order of the distinct surface texts. -/
theorem simstring_dedup_first_occurrence_order (savePreferred : Bool)
    (records : List TermRecord) :
    (parse_and_encode_ngrams savePreferred records).ssInserts
      = firstOccurrences [] (records.map (fun r => r.term))
    ∧ ∀ t : String,
      ((parse_and_encode_ngrams savePreferred records).ssInserts).count t
        = if t ∈ records.map (fun r => r.term) then 1 else 0 := by
  have hmain : (parse_and_encode_ngrams savePreferred records).ssInserts
      = firstOccurrences [] (records.map (fun r => r.term)) := by
    unfold parse_and_encode_ngrams
    rw [foldl_builderStep_ssInserts]
    rfl
  refine ⟨hmain, fun t => ?_⟩
  rw [hmain, firstOccurrences_count]
  simp

theorem foldl_builderStep_cuistyInserts (sp : Bool) :
    ∀ (rs : List TermRecord) (st : Stores),
      (List.foldl (builderStep sp) st rs).cuistyInserts =
        st.cuistyInserts ++ rs.map (fun r => ⟨r.term, r.cui, r.stys, r.preferred⟩)
  | [], st => by simp
  | r :: rest, st => by
    rw [List.map_cons, List.foldl_cons, foldl_builderStep_cuistyInserts sp rest,
      builderStep_cuistyInserts, List.append_assoc]
    rfl

theorem foldl_builderStep_cuiptInserts :
    ∀ (rs : List TermRecord) (st : Stores),
      (List.foldl (builderStep true) st rs).cuiptInserts =
        st.cuiptInserts ++ (rs.filter qualifiesPreferred).map (fun r => (r.cui, r.term))
  | [], st => by simp
  | r :: rest, st => by
    rw [List.foldl_cons, foldl_builderStep_cuiptInserts rest, builderStep_cuiptInserts]
    by_cases hq : qualifiesPreferred r = true
    · rw [List.filter_cons_of_pos hq, List.map_cons]
      simp [hq, List.append_assoc]
    · rw [List.filter_cons_of_neg (by simp [hq])]
      simp [hq]

theorem lookup_map_pairs (rs : List TermRecord) (cui : String) :
    List.lookup cui (rs.map (fun r => (r.cui, r.term)))
      = Option.map (fun r => r.term) (rs.find? (fun r => r.cui == cui)) := by
  induction rs with
  | nil => rfl
  | cons r rest ih =>
    rw [List.map_cons]
    by_cases h : cui = r.cui
    · simp [List.lookup, List.find?, h, beq_iff_eq]
    · have h' : ¬ r.cui = cui := fun he => h he.symm
      have hb : (cui == r.cui) = false := by simp [h]
      have hb' : (r.cui == cui) = false := by simp [h']
      simp [List.lookup, List.find?, hb, hb', ih]

/-- C3: with the preferred-term store enabled, a record produces a
preferred-term insertion exactly when its preferred flag is 1, its source
vocabulary is MTH and its term type is PN; the store's final entry for an
identifier is the term of the last qualifying record in stream order. -/
theorem preferred_term_store_predicate_and_last_write (records : List TermRecord) :
    (parse_and_encode_ngrams true records).cuiptInserts
      = (records.filter qualifiesPreferred).map (fun r => (r.cui, r.term))
    ∧ ∀ cui : String,
      cuiptFinal ((parse_and_encode_ngrams true records).cuiptInserts) cui
        = Option.map (fun r => r.term)
            (((records.filter qualifiesPreferred).reverse).find? (fun r => r.cui == cui)) := by
  have hmain : (parse_and_encode_ngrams true records).cuiptInserts
      = (records.filter qualifiesPreferred).map (fun r => (r.cui, r.term)) := by
    unfold parse_and_encode_ngrams
    rw [foldl_builderStep_cuiptInserts]
    rfl
  refine ⟨hmain, fun cui => ?_⟩
  rw [hmain]
  unfold cuiptFinal
  rw [← List.map_reverse, lookup_map_pairs]

/-- C5: lowercase folding is applied first and unicode normalization second
whenever both flags are enabled, and the surface text Café comes out as
cafe, never café nor CAFE. -/
theorem lowercase_before_unidecode :
    (∀ s : String, applyCaseUnicode true true s = unidecode (pyLower s))
    ∧ termText true true "Café" = "cafe"
    ∧ ("cafe" : String) ≠ "café"
    ∧ ("cafe" : String) ≠ "CAFE" := by
  refine ⟨fun s => rfl, by decide, by decide, by decide⟩

/-! ## Helper lemmas: stripping -/

theorem dropWhile_append_all (p : Char → Bool) :
    ∀ (l1 l2 : List Char), (∀ c ∈ l1, p c = true) →
      List.dropWhile p (l1 ++ l2) = List.dropWhile p l2
  | [], l2, _ => rfl
  | a :: l1, l2, h => by
    rw [List.cons_append, List.dropWhile_cons, if_pos (h a (List.mem_cons_self a l1))]
    exact dropWhile_append_all p l1 l2 (fun c hc => h c (List.mem_cons_of_mem a hc))

theorem dropWhile_append_of_ne_nil (p : Char → Bool) :
    ∀ (l1 l2 : List Char), List.dropWhile p l1 ≠ [] →
      List.dropWhile p (l1 ++ l2) = List.dropWhile p l1 ++ l2
  | [], _, h => absurd rfl h
  | a :: l1, l2, h => by
    by_cases hp : p a = true
    · rw [List.dropWhile_cons, if_pos hp] at h
      rw [List.cons_append, List.dropWhile_cons, if_pos hp, List.dropWhile_cons, if_pos hp]
      exact dropWhile_append_of_ne_nil p l1 l2 h
    · rw [List.cons_append, List.dropWhile_cons, if_neg hp, List.dropWhile_cons, if_neg hp,
        List.cons_append]

theorem pyStrip_padding (ws1 ws2 : List Char) (l : List Char)
    (h1 : ∀ c ∈ ws1, isPyWhite c = true) (h2 : ∀ c ∈ ws2, isPyWhite c = true) :
    pyStrip ⟨ws1 ++ l ++ ws2⟩ = pyStrip ⟨l⟩ := by
  unfold pyStrip
  refine congrArg (fun cs : List Char => (⟨cs⟩ : String)) ?_
  show (((ws1 ++ l ++ ws2).dropWhile isPyWhite).reverse.dropWhile isPyWhite).reverse
    = ((l.dropWhile isPyWhite).reverse.dropWhile isPyWhite).reverse
  rw [List.append_assoc, dropWhile_append_all isPyWhite ws1 (l ++ ws2) h1]
  by_cases hd : List.dropWhile isPyWhite l = []
  · have hall : ∀ c ∈ l, isPyWhite c = true := List.dropWhile_eq_nil_iff.mp hd
    have hall2 : ∀ c ∈ l ++ ws2, isPyWhite c = true := by
      intro c hc
      rcases List.mem_append.mp hc with h | h
      · exact hall c h
      · exact h2 c h
    rw [List.dropWhile_eq_nil_iff.mpr hall2, hd]
  · rw [dropWhile_append_of_ne_nil isPyWhite l ws2 hd, List.reverse_append,
      dropWhile_append_all isPyWhite ws2.reverse _ (fun c hc => h2 c (List.mem_reverse.mp hc))]

/-- C10: the raw surface text is stripped of surrounding whitespace before
lowercase folding and unicode normalization, so a `str` field padded with
whitespace yields the same transformed term text as the unpadded field. -/
theorem surface_text_stripped_before_transforms
    (lowercase normalizeUnicode : Bool) (ws1 ws2 : List Char) (s : String)
    (h1 : ∀ c ∈ ws1, isPyWhite c = true) (h2 : ∀ c ∈ ws2, isPyWhite c = true) :
    termText lowercase normalizeUnicode ⟨ws1 ++ s.data ++ ws2⟩
      = termText lowercase normalizeUnicode s := by
  unfold termText
  rw [pyStrip_padding ws1 ws2 s.data h1 h2]

/-- Witness for C10 at a concrete padded surface text. -/
theorem surface_text_stripped_before_transforms_witness :
    ((∀ c ∈ ([' ', '\t'] : List Char), isPyWhite c = true)
      ∧ (∀ c ∈ (['\n'] : List Char), isPyWhite c = true))
    ∧ termText true true ⟨[' ', '\t'] ++ ("Café" : String).data ++ ['\n']⟩
        = termText true true "Café" :=
  ⟨⟨by decide, by decide⟩,
    surface_text_stripped_before_transforms true true [' ', '\t'] ['\n'] "Café"
      (by decide) (by decide)⟩

/-! ## Helper lemmas: semantic-type loader -/

theorem assocLookup_assocAppend (m : List (String × List String)) (k v k' : String) :
    assocLookup (assocAppend m k v) k'
      = if k = k' then some ((assocLookup m k).getD [] ++ [v])
        else assocLookup m k' := by
  induction m with
  | nil =>
    by_cases h : k = k' <;> simp [assocAppend, assocLookup, h]
  | cons p m ih =>
    obtain ⟨a, vs⟩ := p
    by_cases hak : a = k
    · subst hak
      by_cases hk' : a = k'
      · subst hk'
        simp [assocAppend, assocLookup]
      · simp [assocAppend, assocLookup, hk', fun h : a = a => h]
    · by_cases hak' : a = k'
      · subst hak'
        have hk : ¬ k = a := fun h => hak h.symm
        simp [assocAppend, assocLookup, hak, hk]
      · simp [assocAppend, assocLookup, hak, hak', ih]

theorem styStep_ok (headers : List String) (m m' : List (String × List String))
    (ln : String) (h : styStep headers m ln = .ok m') :
    ∃ c sv, parseSty headers ln = some (c, sv) ∧ m' = assocAppend m c sv := by
  unfold styStep at h
  unfold parseSty
  cases hc : pyGet (pyDictOfLine headers ln) "cui" with
  | none => rw [hc] at h; exact absurd h (by simp)
  | some c =>
    rw [hc] at h
    cases hs : pyGet (pyDictOfLine headers ln) "sty" with
    | none => rw [hs] at h; exact absurd h (by simp)
    | some sv =>
      rw [hs] at h
      simp only [Except.ok.injEq] at h
      exact ⟨c, sv, rfl, h.symm⟩

theorem styFold_lookup (headers : List String) :
    ∀ (lines : List String) (m m' : List (String × List String)),
      styFold headers m lines = .ok m' →
      ∀ cui, assocLookup m' cui = styExtend (assocLookup m cui) (styColumn headers lines cui)
  | [], m, m', h, cui => by
    unfold styFold at h
    have hm : m' = m := (Except.ok.inj h).symm
    rw [hm]
    cases ho : assocLookup m cui <;> simp [styColumn, styExtend, ho]
  | ln :: rest, m, m', h, cui => by
    unfold styFold at h
    cases hs : styStep headers m ln with
    | error e => rw [hs] at h; exact absurd h (by simp)
    | ok m1 =>
      rw [hs] at h
      obtain ⟨c, sv, hparse, hm1⟩ := styStep_ok headers m m1 ln hs
      subst hm1
      have ih := styFold_lookup headers rest (assocAppend m c sv) m' h cui
      rw [ih, assocLookup_assocAppend]
      have hcol : styColumn headers (ln :: rest) cui
          = if c = cui then sv :: styColumn headers rest cui
            else styColumn headers rest cui := by
        unfold styColumn
        rw [List.filterMap_cons, hparse]
        by_cases hcc : c = cui <;> simp [hcc]
      rw [hcol]
      by_cases hcc : c = cui
      · subst hcc
        rw [if_pos rfl, if_pos rfl]
        cases ho : assocLookup m c with
        | none => simp [styExtend, ho]
        | some vs => simp [styExtend, ho]
      · rw [if_neg hcc, if_neg hcc]

/-! ## Helper lemmas: extractor -/

theorem extractStep_of_err (headers : List String) (lang : String)
    (lc uni : Bool) (sem : List (String × List String)) (total : Nat)
    (st : ExtractState) (ln : String) (h : st.err.isSome = true) :
    extractStep headers lang lc uni sem total st ln = st := by
  unfold extractStep
  rw [if_pos h]

theorem foldl_extractStep_of_err (headers : List String) (lang : String)
    (lc uni : Bool) (sem : List (String × List String)) (total : Nat) :
    ∀ (lines : List String) (st : ExtractState), st.err.isSome = true →
      List.foldl (extractStep headers lang lc uni sem total) st lines = st
  | [], _, _ => rfl
  | ln :: rest, st, h => by
    rw [List.foldl_cons, extractStep_of_err headers lang lc uni sem total st ln h,
      foldl_extractStep_of_err headers lang lc uni sem total rest st h]

theorem extractStep_skip (headers : List String) (lang : String)
    (lc uni : Bool) (sem : List (String × List String)) (total : Nat)
    (st : ExtractState) (ln : String)
    (h : iterStep headers lang ln = .ok none) :
    extractStep headers lang lc uni sem total st ln = st := by
  unfold extractStep
  by_cases he : st.err.isSome = true
  · rw [if_pos he]
  · rw [if_neg he, h]

theorem foldl_extractStep_replicate_skip (headers : List String) (lang : String)
    (lc uni : Bool) (sem : List (String × List String)) (total : Nat)
    (ln : String) (h : iterStep headers lang ln = .ok none) :
    ∀ (n : Nat) (st : ExtractState),
      List.foldl (extractStep headers lang lc uni sem total) st (List.replicate n ln) = st
  | 0, _ => rfl
  | n + 1, st => by
    rw [List.replicate_succ, List.foldl_cons,
      extractStep_skip headers lang lc uni sem total st ln h,
      foldl_extractStep_replicate_skip headers lang lc uni sem total ln h n st]

theorem iterStep_ok_some (headers : List String) (lang : String) (ln : String)
    (c : List (String × String)) (h : iterStep headers lang ln = .ok (some c)) :
    c = pyDictOfLine headers ln
    ∧ pyGet (pyDictOfLine headers ln) "lat" = some lang := by
  unfold iterStep at h
  cases hg : pyGet (pyDictOfLine headers ln) "lat" with
  | none => rw [hg] at h; exact absurd h (by simp)
  | some lat =>
    rw [hg] at h
    dsimp only at h
    by_cases hl : lat = lang
    · rw [if_pos hl] at h
      simp only [Except.ok.injEq, Option.some.injEq] at h
      exact ⟨h.symm, by rw [hl]⟩
    · rw [if_neg hl] at h
      exact absurd h (by simp)

theorem extractContent_ok_stys (lc uni : Bool) (sem : List (String × List String))
    (content : List (String × String)) (r : TermRecord)
    (h : extractContent lc uni sem content = .ok r) :
    assocLookup sem r.cui = some r.stys := by
  unfold extractContent at h
  cases h1 : pyGet content "str" <;> rw [h1] at h
  case none => exact absurd h (by simp)
  cases h2 : pyGet content "cui" <;> rw [h2] at h
  case none => exact absurd h (by simp)
  cases h3 : pyGet content "sab" <;> rw [h3] at h
  case none => exact absurd h (by simp)
  cases h4 : pyGet content "tty" <;> rw [h4] at h
  case none => exact absurd h (by simp)
  cases h5 : pyGet content "ispref" <;> rw [h5] at h
  case none => exact absurd h (by simp)
  rename_i rawStr cui sab tty ispref
  cases h6 : assocLookup sem cui <;> simp only [h6] at h
  case none => exact absurd h (by simp)
  rename_i stys
  simp only [Except.ok.injEq] at h
  rw [← h]
  exact h6

theorem extractStep_iter_error (headers : List String) (lang : String)
    (lc uni : Bool) (sem : List (String × List String)) (total : Nat)
    (st : ExtractState) (ln : String) (e : String)
    (he : st.err = none) (hit : iterStep headers lang ln = .error e) :
    extractStep headers lang lc uni sem total st ln = { st with err := some e } := by
  simp only [extractStep, he, Option.isSome_none, Bool.false_eq_true, if_false, hit]

theorem extractStep_yield_ok (headers : List String) (lang : String)
    (lc uni : Bool) (sem : List (String × List String)) (total : Nat)
    (st : ExtractState) (ln : String) (content : List (String × String))
    (r : TermRecord) (he : st.err = none)
    (hit : iterStep headers lang ln = .ok (some content))
    (hec : extractContent lc uni sem content = .ok r) :
    extractStep headers lang lc uni sem total st ln =
      { st with i := st.i + 1, progress := progressAfter total st,
                records := st.records ++ [r] } := by
  simp only [extractStep, he, Option.isSome_none, Bool.false_eq_true, if_false, hit, hec,
    progressAfter]

theorem extractStep_yield_error (headers : List String) (lang : String)
    (lc uni : Bool) (sem : List (String × List String)) (total : Nat)
    (st : ExtractState) (ln : String) (content : List (String × String))
    (e : String) (he : st.err = none)
    (hit : iterStep headers lang ln = .ok (some content))
    (hec : extractContent lc uni sem content = .error e) :
    extractStep headers lang lc uni sem total st ln =
      { st with i := st.i + 1, progress := progressAfter total st,
                err := some e } := by
  simp only [extractStep, he, Option.isSome_none, Bool.false_eq_true, if_false, hit, hec,
    progressAfter]

/-- The records field of one extraction step: either unchanged, or extended
by exactly the record of a yielded, fully extracted row. -/
theorem extractStep_records_cases (headers : List String) (lang : String)
    (lc uni : Bool) (sem : List (String × List String)) (total : Nat)
    (st : ExtractState) (ln : String) :
    (extractStep headers lang lc uni sem total st ln).records = st.records
    ∨ ∃ r : TermRecord,
        extractContent lc uni sem (pyDictOfLine headers ln) = .ok r
        ∧ pyGet (pyDictOfLine headers ln) "lat" = some lang
        ∧ (extractStep headers lang lc uni sem total st ln).records = st.records ++ [r] := by
  cases he : st.err with
  | some e =>
    rw [extractStep_of_err headers lang lc uni sem total st ln (by rw [he]; rfl)]
    exact Or.inl rfl
  | none =>
    cases hit : iterStep headers lang ln with
    | error e =>
      rw [extractStep_iter_error headers lang lc uni sem total st ln e he hit]
      exact Or.inl rfl
    | ok o =>
      cases o with
      | none =>
        rw [extractStep_skip headers lang lc uni sem total st ln hit]
        exact Or.inl rfl
      | some content =>
        obtain ⟨hc, hlat⟩ := iterStep_ok_some headers lang ln content hit
        subst hc
        cases hec : extractContent lc uni sem (pyDictOfLine headers ln) with
        | error e =>
          rw [extractStep_yield_error headers lang lc uni sem total st ln _ e he hit hec]
          exact Or.inl rfl
        | ok r =>
          rw [extractStep_yield_ok headers lang lc uni sem total st ln _ r he hit hec]
          exact Or.inr ⟨r, rfl, hlat, rfl⟩

theorem foldl_extractStep_records_prov (headers : List String) (lang : String)
    (lc uni : Bool) (sem : List (String × List String)) (total : Nat) :
    ∀ (lines : List String) (st : ExtractState) (r : TermRecord),
      r ∈ (List.foldl (extractStep headers lang lc uni sem total) st lines).records →
      r ∈ st.records
      ∨ ∃ ln ∈ lines, pyGet (pyDictOfLine headers ln) "lat" = some lang
          ∧ extractContent lc uni sem (pyDictOfLine headers ln) = .ok r
  | [], st, r, h => Or.inl h
  | ln :: rest, st, r, h => by
    rw [List.foldl_cons] at h
    rcases foldl_extractStep_records_prov headers lang lc uni sem total rest _ r h with
      hmem | ⟨ln', hln', hlat, hok⟩
    · rcases extractStep_records_cases headers lang lc uni sem total st ln with
        heq | ⟨r', hok', hlat', heq⟩
      · rw [heq] at hmem
        exact Or.inl hmem
      · rw [heq, List.mem_append] at hmem
        rcases hmem with hmem | hmem
        · exact Or.inl hmem
        · rw [List.mem_singleton] at hmem
          subst hmem
          exact Or.inr ⟨ln, List.mem_cons_self ln rest, hlat', hok'⟩
    · exact Or.inr ⟨ln', List.mem_cons_of_mem ln hln', hlat, hok⟩

theorem extractRows_records (headers : List String) (lang : String)
    (lc uni : Bool) (sem : List (String × List String)) (lines : List String) :
    (extractRows headers lang lc uni sem lines).records
      = (List.foldl (extractStep headers lang lc uni sem (countlines lines))
          ⟨0, [], [], none⟩ lines).records := by
  unfold extractRows
  dsimp only
  split
  · rfl
  · split <;> rfl

theorem extractRows_i (headers : List String) (lang : String)
    (lc uni : Bool) (sem : List (String × List String)) (lines : List String) :
    (extractRows headers lang lc uni sem lines).i
      = (List.foldl (extractStep headers lang lc uni sem (countlines lines))
          ⟨0, [], [], none⟩ lines).i := by
  unfold extractRows
  dsimp only
  split
  · rfl
  · split <;> rfl

theorem extractRows_progress (headers : List String) (lang : String)
    (lc uni : Bool) (sem : List (String × List String)) (lines : List String) :
    (extractRows headers lang lc uni sem lines).progress
      = (List.foldl (extractStep headers lang lc uni sem (countlines lines))
          ⟨0, [], [], none⟩ lines).progress := by
  unfold extractRows
  dsimp only
  split
  · rfl
  · split <;> rfl

theorem extractRows_rowError_none_iff (headers : List String) (lang : String)
    (lc uni : Bool) (sem : List (String × List String)) (lines : List String) :
    (extractRows headers lang lc uni sem lines).rowError = none
      ↔ (List.foldl (extractStep headers lang lc uni sem (countlines lines))
          ⟨0, [], [], none⟩ lines).err = none := by
  unfold extractRows
  dsimp only
  split
  · exact Iff.rfl
  · rename_i h
    have herr := Option.not_isSome_iff_eq_none.mp h
    split <;> exact ⟨fun _ => herr, fun _ => rfl⟩

theorem foldl_extractStep_stys (headers : List String) (lang : String)
    (lc uni : Bool) (sem : List (String × List String)) (total : Nat) :
    ∀ (lines : List String) (st : ExtractState),
      (∀ r ∈ st.records, assocLookup sem r.cui = some r.stys) →
      ∀ r ∈ (List.foldl (extractStep headers lang lc uni sem total) st lines).records,
        assocLookup sem r.cui = some r.stys
  | [], st, hst, r, hr => hst r hr
  | ln :: rest, st, hst, r, hr => by
    rw [List.foldl_cons] at hr
    refine foldl_extractStep_stys headers lang lc uni sem total rest _ ?_ r hr
    intro r' hr'
    rcases extractStep_records_cases headers lang lc uni sem total st ln with
      heq | ⟨r'', hok, _, heq⟩
    · rw [heq] at hr'
      exact hst r' hr'
    · rw [heq, List.mem_append] at hr'
      rcases hr' with h | h
      · exact hst r' h
      · rw [List.mem_singleton] at h
        subst h
        exact extractContent_ok_stys lc uni sem _ r' hok

/-- C4: every entry of the semantic-type store carries, for its concept
identifier, exactly the ordered `sty` column of that identifier in the
semantic-type source table, duplicates preserved in file order. -/
theorem semtype_store_sequences_match_source_table
    (styHeaders conHeaders : List String) (lang : String) (lc uni sp : Bool)
    (mrstyLines conLines : List String) (sem : List (String × List String))
    (hload : get_semantic_types styHeaders mrstyLines = .ok sem)
    (e : CuiStyInsert)
    (he : e ∈ (pipelineRun conHeaders lang lc uni sp sem conLines).1.cuistyInserts) :
    e.stys = styColumn styHeaders mrstyLines e.cui := by
  have hrecs : (pipelineRun conHeaders lang lc uni sp sem conLines).1.cuistyInserts
      = ((extractRows conHeaders lang lc uni sem conLines).records).map
          (fun r => ⟨r.term, r.cui, r.stys, r.preferred⟩) := by
    show (parse_and_encode_ngrams sp
        (extractRows conHeaders lang lc uni sem conLines).records).cuistyInserts = _
    unfold parse_and_encode_ngrams
    rw [foldl_builderStep_cuistyInserts]
    rfl
  rw [hrecs] at he
  obtain ⟨r, hr, hre⟩ := List.mem_map.mp he
  have hlk : assocLookup sem r.cui = some r.stys := by
    rw [extractRows_records] at hr
    exact foldl_extractStep_stys conHeaders lang lc uni sem (countlines conLines)
      conLines ⟨0, [], [], none⟩ (by intro r' h; exact absurd h (List.not_mem_nil r')) r hr
  have hcol := styFold_lookup styHeaders mrstyLines [] sem hload r.cui
  rw [hlk] at hcol
  have hnone : assocLookup [] r.cui = none := rfl
  rw [hnone] at hcol
  unfold styExtend at hcol
  by_cases hc : styColumn styHeaders mrstyLines r.cui = []
  · rw [if_pos hc] at hcol
    exact absurd hcol (by simp)
  · rw [if_neg hc] at hcol
    have : r.stys = styColumn styHeaders mrstyLines r.cui := Option.some.inj hcol
    rw [← hre]
    exact this

/-- Witness for C4 at a concrete fixture with a duplicated semantic-type
code. -/
theorem semtype_store_sequences_match_source_table_witness :
    get_semantic_types ["cui", "sty"] ["C0001|T001", "C0001|T001"]
        = .ok [("C0001", ["T001", "T001"])]
    ∧ (⟨"aspirin", "C0001", ["T001", "T001"], 1⟩ : CuiStyInsert)
        ∈ (pipelineRun ["lat", "str", "cui", "sab", "tty", "ispref"] "ENG" false false true
            [("C0001", ["T001", "T001"])] ["ENG|aspirin|C0001|MTH|PN|Y"]).1.cuistyInserts
    ∧ (⟨"aspirin", "C0001", ["T001", "T001"], 1⟩ : CuiStyInsert).stys
        = styColumn ["cui", "sty"] ["C0001|T001", "C0001|T001"]
            (⟨"aspirin", "C0001", ["T001", "T001"], 1⟩ : CuiStyInsert).cui :=
  ⟨by rfl, by decide,
    semtype_store_sequences_match_source_table ["cui", "sty"]
      ["lat", "str", "cui", "sab", "tty", "ispref"] "ENG" false false true
      ["C0001|T001", "C0001|T001"] ["ENG|aspirin|C0001|MTH|PN|Y"]
      [("C0001", ["T001", "T001"])] (by rfl) _ (by decide)⟩

/-- C6: every term record produced by the extractor comes from a source line
whose language field equals the configured filter, and the stores are built
from those records alone. -/
theorem language_filter_only_matching_rows (conHeaders : List String)
    (lang : String) (lc uni sp : Bool) (sem : List (String × List String))
    (lines : List String) (r : TermRecord)
    (hr : r ∈ (extractRows conHeaders lang lc uni sem lines).records) :
    (∃ ln ∈ lines, pyGet (pyDictOfLine conHeaders ln) "lat" = some lang
        ∧ extractContent lc uni sem (pyDictOfLine conHeaders ln) = .ok r)
    ∧ (pipelineRun conHeaders lang lc uni sp sem lines).1
        = parse_and_encode_ngrams sp (extractRows conHeaders lang lc uni sem lines).records := by
  constructor
  · rw [extractRows_records] at hr
    rcases foldl_extractStep_records_prov conHeaders lang lc uni sem (countlines lines)
        lines ⟨0, [], [], none⟩ r hr with h | h
    · exact absurd h (List.not_mem_nil r)
    · exact h
  · rfl

/-- Witness for C6 on a two-line fixture with one English and one Spanish
row. -/
theorem language_filter_only_matching_rows_witness :
    (⟨"aspirin", "C0001", ["T001"], "MTH", "PN", 1⟩ : TermRecord)
        ∈ (extractRows ["lat", "str", "cui", "sab", "tty", "ispref"] "ENG" false false
            [("C0001", ["T001"])]
            ["ENG|aspirin|C0001|MTH|PN|Y", "SPA|aspirina|C0001|MTH|PN|Y"]).records
    ∧ ((∃ ln ∈ ["ENG|aspirin|C0001|MTH|PN|Y", "SPA|aspirina|C0001|MTH|PN|Y"],
          pyGet (pyDictOfLine ["lat", "str", "cui", "sab", "tty", "ispref"] ln) "lat"
            = some "ENG"
          ∧ extractContent false false [("C0001", ["T001"])]
              (pyDictOfLine ["lat", "str", "cui", "sab", "tty", "ispref"] ln)
            = .ok ⟨"aspirin", "C0001", ["T001"], "MTH", "PN", 1⟩)
      ∧ (pipelineRun ["lat", "str", "cui", "sab", "tty", "ispref"] "ENG" false false true
            [("C0001", ["T001"])]
            ["ENG|aspirin|C0001|MTH|PN|Y", "SPA|aspirina|C0001|MTH|PN|Y"]).1
          = parse_and_encode_ngrams true
              (extractRows ["lat", "str", "cui", "sab", "tty", "ispref"] "ENG" false false
                [("C0001", ["T001"])]
                ["ENG|aspirin|C0001|MTH|PN|Y", "SPA|aspirina|C0001|MTH|PN|Y"]).records) :=
  ⟨by decide,
    language_filter_only_matching_rows ["lat", "str", "cui", "sab", "tty", "ispref"]
      "ENG" false false true [("C0001", ["T001"])]
      ["ENG|aspirin|C0001|MTH|PN|Y", "SPA|aspirina|C0001|MTH|PN|Y"]
      ⟨"aspirin", "C0001", ["T001"], "MTH", "PN", 1⟩ (by decide)⟩

theorem extractRows_rowError (headers : List String) (lang : String)
    (lc uni : Bool) (sem : List (String × List String)) (lines : List String) :
    (extractRows headers lang lc uni sem lines).rowError
      = (List.foldl (extractStep headers lang lc uni sem (countlines lines))
          ⟨0, [], [], none⟩ lines).err := by
  unfold extractRows
  dsimp only
  split
  · rfl
  · rename_i h
    have herr := Option.not_isSome_iff_eq_none.mp h
    split <;> exact herr.symm

/-- The counter, record list and pending exception of the loop state do not
depend on the total used for the printed fractions. -/
theorem extractStep_total_agree (headers : List String) (lang : String)
    (lc uni : Bool) (sem : List (String × List String)) (t1 t2 : Nat)
    (st1 st2 : ExtractState) (ln : String)
    (hi : st1.i = st2.i) (hr : st1.records = st2.records) (he : st1.err = st2.err) :
    (extractStep headers lang lc uni sem t1 st1 ln).i
        = (extractStep headers lang lc uni sem t2 st2 ln).i
    ∧ (extractStep headers lang lc uni sem t1 st1 ln).records
        = (extractStep headers lang lc uni sem t2 st2 ln).records
    ∧ (extractStep headers lang lc uni sem t1 st1 ln).err
        = (extractStep headers lang lc uni sem t2 st2 ln).err := by
  cases hse : st1.err with
  | some e =>
    rw [extractStep_of_err headers lang lc uni sem t1 st1 ln (by rw [hse]; rfl),
      extractStep_of_err headers lang lc uni sem t2 st2 ln (by rw [← he, hse]; rfl)]
    exact ⟨hi, hr, he⟩
  | none =>
    have hse2 : st2.err = none := he ▸ hse
    cases hit : iterStep headers lang ln with
    | error e =>
      rw [extractStep_iter_error headers lang lc uni sem t1 st1 ln e hse hit,
        extractStep_iter_error headers lang lc uni sem t2 st2 ln e hse2 hit]
      exact ⟨hi, hr, rfl⟩
    | ok o =>
      cases o with
      | none =>
        rw [extractStep_skip headers lang lc uni sem t1 st1 ln hit,
          extractStep_skip headers lang lc uni sem t2 st2 ln hit]
        exact ⟨hi, hr, he⟩
      | some content =>
        cases hec : extractContent lc uni sem content with
        | error e =>
          rw [extractStep_yield_error headers lang lc uni sem t1 st1 ln content e hse hit hec,
            extractStep_yield_error headers lang lc uni sem t2 st2 ln content e hse2 hit hec]
          exact ⟨by rw [hi], by rw [hr], rfl⟩
        | ok r =>
          rw [extractStep_yield_ok headers lang lc uni sem t1 st1 ln content r hse hit hec,
            extractStep_yield_ok headers lang lc uni sem t2 st2 ln content r hse2 hit hec]
          exact ⟨by rw [hi], by rw [hr], by rw [he]⟩

theorem foldl_extractStep_total_agree (headers : List String) (lang : String)
    (lc uni : Bool) (sem : List (String × List String)) (t1 t2 : Nat) :
    ∀ (lines : List String) (st1 st2 : ExtractState),
      st1.i = st2.i → st1.records = st2.records → st1.err = st2.err →
      (List.foldl (extractStep headers lang lc uni sem t1) st1 lines).i
          = (List.foldl (extractStep headers lang lc uni sem t2) st2 lines).i
      ∧ (List.foldl (extractStep headers lang lc uni sem t1) st1 lines).records
          = (List.foldl (extractStep headers lang lc uni sem t2) st2 lines).records
      ∧ (List.foldl (extractStep headers lang lc uni sem t1) st1 lines).err
          = (List.foldl (extractStep headers lang lc uni sem t2) st2 lines).err
  | [], st1, st2, hi, hr, he => ⟨hi, hr, he⟩
  | ln :: rest, st1, st2, hi, hr, he => by
    rw [List.foldl_cons, List.foldl_cons]
    obtain ⟨hi', hr', he'⟩ :=
      extractStep_total_agree headers lang lc uni sem t1 t2 st1 st2 ln hi hr he
    exact foldl_extractStep_total_agree headers lang lc uni sem t1 t2 rest _ _ hi' hr' he'

/-- C2: a vocabulary row that passes the language filter and parses, but
whose concept identifier is absent from the semantic-type map, aborts the
run with a KeyError at that row; the records, and hence all three stores,
are exactly those of the input prefix before the row — nothing derived from
the row or from any later row is written. -/
theorem missing_cui_aborts_without_store_writes
    (headers : List String) (lang : String) (lc uni sp : Bool)
    (sem : List (String × List String)) (pre rest : List String) (ln : String)
    (s0 cui sab0 tty0 pf0 : String)
    (hpre : (extractRows headers lang lc uni sem pre).rowError = none)
    (hlat : pyGet (pyDictOfLine headers ln) "lat" = some lang)
    (hstr : pyGet (pyDictOfLine headers ln) "str" = some s0)
    (hcui : pyGet (pyDictOfLine headers ln) "cui" = some cui)
    (hsab : pyGet (pyDictOfLine headers ln) "sab" = some sab0)
    (htty : pyGet (pyDictOfLine headers ln) "tty" = some tty0)
    (hpf : pyGet (pyDictOfLine headers ln) "ispref" = some pf0)
    (hmiss : assocLookup sem cui = none) :
    (extractRows headers lang lc uni sem (pre ++ ln :: rest)).rowError
        = some ("KeyError: " ++ cui)
    ∧ (extractRows headers lang lc uni sem (pre ++ ln :: rest)).records
        = (extractRows headers lang lc uni sem pre).records
    ∧ (pipelineRun headers lang lc uni sp sem (pre ++ ln :: rest)).1
        = parse_and_encode_ngrams sp (extractRows headers lang lc uni sem pre).records := by
  have hit : iterStep headers lang ln = .ok (some (pyDictOfLine headers ln)) := by
    unfold iterStep
    rw [hlat]
    dsimp only
    rw [if_pos rfl]
  have hec : extractContent lc uni sem (pyDictOfLine headers ln)
      = .error ("KeyError: " ++ cui) := by
    simp only [extractContent, hstr, hcui, hsab, htty, hpf, hmiss]
  have h0 : (List.foldl (extractStep headers lang lc uni sem (countlines pre))
      ⟨0, [], [], none⟩ pre).err = none :=
    (extractRows_rowError_none_iff headers lang lc uni sem pre).mp hpre
  obtain ⟨hagi, hagr, hage⟩ := foldl_extractStep_total_agree headers lang lc uni sem
    (countlines pre) (countlines (pre ++ ln :: rest)) pre
    ⟨0, [], [], none⟩ ⟨0, [], [], none⟩ rfl rfl rfl
  have h0' : (List.foldl (extractStep headers lang lc uni sem
      (countlines (pre ++ ln :: rest))) ⟨0, [], [], none⟩ pre).err = none := by
    rw [← hage]
    exact h0
  have hstep := extractStep_yield_error headers lang lc uni sem
    (countlines (pre ++ ln :: rest))
    (List.foldl (extractStep headers lang lc uni sem (countlines (pre ++ ln :: rest)))
      ⟨0, [], [], none⟩ pre)
    ln (pyDictOfLine headers ln) ("KeyError: " ++ cui) h0' hit hec
  have hfull : List.foldl (extractStep headers lang lc uni sem
        (countlines (pre ++ ln :: rest))) ⟨0, [], [], none⟩ (pre ++ ln :: rest)
      = { (List.foldl (extractStep headers lang lc uni sem
            (countlines (pre ++ ln :: rest))) ⟨0, [], [], none⟩ pre) with
          i := (List.foldl (extractStep headers lang lc uni sem
            (countlines (pre ++ ln :: rest))) ⟨0, [], [], none⟩ pre).i + 1,
          progress := progressAfter (countlines (pre ++ ln :: rest))
            (List.foldl (extractStep headers lang lc uni sem
              (countlines (pre ++ ln :: rest))) ⟨0, [], [], none⟩ pre),
          err := some ("KeyError: " ++ cui) } := by
    rw [List.foldl_append, List.foldl_cons, hstep]
    exact foldl_extractStep_of_err headers lang lc uni sem _ rest _ rfl
  have hrecsfull : (extractRows headers lang lc uni sem (pre ++ ln :: rest)).records
      = (extractRows headers lang lc uni sem pre).records := by
    rw [extractRows_records, extractRows_records, hfull, ← hagr]
  refine ⟨?_, hrecsfull, ?_⟩
  · rw [extractRows_rowError, hfull]
  · show parse_and_encode_ngrams sp
        (extractRows headers lang lc uni sem (pre ++ ln :: rest)).records = _
    rw [hrecsfull]

/-- Witness for C2: a two-line vocabulary where the second row references
an identifier absent from the semantic-type map. -/
theorem missing_cui_aborts_without_store_writes_witness :
    ((extractRows ["lat", "str", "cui", "sab", "tty", "ispref"] "ENG" false false
        [("C0001", ["T001"])] ["ENG|aspirin|C0001|MTH|PN|Y"]).rowError = none
      ∧ assocLookup [("C0001", ["T001"])] "C0002" = none)
    ∧ (extractRows ["lat", "str", "cui", "sab", "tty", "ispref"] "ENG" false false
        [("C0001", ["T001"])]
        (["ENG|aspirin|C0001|MTH|PN|Y"] ++ "ENG|tylenol|C0002|MTH|PN|Y"
          :: ["ENG|ibuprofen|C0001|MTH|PN|Y"])).rowError
        = some ("KeyError: " ++ "C0002")
    ∧ (extractRows ["lat", "str", "cui", "sab", "tty", "ispref"] "ENG" false false
        [("C0001", ["T001"])]
        (["ENG|aspirin|C0001|MTH|PN|Y"] ++ "ENG|tylenol|C0002|MTH|PN|Y"
          :: ["ENG|ibuprofen|C0001|MTH|PN|Y"])).records
        = (extractRows ["lat", "str", "cui", "sab", "tty", "ispref"] "ENG" false false
            [("C0001", ["T001"])] ["ENG|aspirin|C0001|MTH|PN|Y"]).records
    ∧ (pipelineRun ["lat", "str", "cui", "sab", "tty", "ispref"] "ENG" false false true
        [("C0001", ["T001"])]
        (["ENG|aspirin|C0001|MTH|PN|Y"] ++ "ENG|tylenol|C0002|MTH|PN|Y"
          :: ["ENG|ibuprofen|C0001|MTH|PN|Y"])).1
        = parse_and_encode_ngrams true
            (extractRows ["lat", "str", "cui", "sab", "tty", "ispref"] "ENG" false false
              [("C0001", ["T001"])] ["ENG|aspirin|C0001|MTH|PN|Y"]).records :=
  ⟨⟨by decide, by decide⟩,
    missing_cui_aborts_without_store_writes ["lat", "str", "cui", "sab", "tty", "ispref"]
      "ENG" false false true [("C0001", ["T001"])] ["ENG|aspirin|C0001|MTH|PN|Y"]
      ["ENG|ibuprofen|C0001|MTH|PN|Y"] "ENG|tylenol|C0002|MTH|PN|Y"
      "tylenol" "C0002" "MTH" "PN" "Y"
      (by decide) (by decide) (by decide) (by decide) (by decide) (by decide) (by decide)
      (by decide)⟩

theorem progressAfter_inv (total : Nat) (st : ExtractState)
    (h : st.progress = (List.range (st.i / 100000)).map (progressMark total)) :
    progressAfter total st
      = (List.range ((st.i + 1) / 100000)).map (progressMark total) := by
  unfold progressAfter
  by_cases hm : (st.i + 1) % 100000 = 0
  · rw [if_pos hm, h]
    have hdvd : 100000 ∣ (st.i + 1) := Nat.dvd_of_mod_eq_zero hm
    have hdiv : (st.i + 1) / 100000 = st.i / 100000 + 1 := by
      rw [Nat.succ_div, if_pos hdvd]
    have hmul : (st.i / 100000 + 1) * 100000 = st.i + 1 := by
      rw [← hdiv]
      exact Nat.div_mul_cancel hdvd
    rw [hdiv, List.range_succ, List.map_append, List.map_singleton]
    unfold progressMark
    rw [hmul]
  · rw [if_neg hm, h]
    have hdvd : ¬ 100000 ∣ (st.i + 1) := fun hd => hm (Nat.mod_eq_zero_of_dvd hd)
    have hdiv : (st.i + 1) / 100000 = st.i / 100000 := by
      rw [Nat.succ_div, if_neg hdvd, Nat.add_zero]
    rw [hdiv]

theorem extractStep_progress_inv (headers : List String) (lang : String)
    (lc uni : Bool) (sem : List (String × List String)) (total : Nat)
    (st : ExtractState) (ln : String)
    (h : st.progress = (List.range (st.i / 100000)).map (progressMark total)) :
    (extractStep headers lang lc uni sem total st ln).progress
      = (List.range ((extractStep headers lang lc uni sem total st ln).i / 100000)).map
          (progressMark total) := by
  cases hse : st.err with
  | some e =>
    rw [extractStep_of_err headers lang lc uni sem total st ln (by rw [hse]; rfl)]
    exact h
  | none =>
    cases hit : iterStep headers lang ln with
    | error e =>
      rw [extractStep_iter_error headers lang lc uni sem total st ln e hse hit]
      exact h
    | ok o =>
      cases o with
      | none =>
        rw [extractStep_skip headers lang lc uni sem total st ln hit]
        exact h
      | some content =>
        cases hec : extractContent lc uni sem content with
        | error e =>
          rw [extractStep_yield_error headers lang lc uni sem total st ln content e hse hit hec]
          exact progressAfter_inv total st h
        | ok r =>
          rw [extractStep_yield_ok headers lang lc uni sem total st ln content r hse hit hec]
          exact progressAfter_inv total st h

theorem foldl_extractStep_progress (headers : List String) (lang : String)
    (lc uni : Bool) (sem : List (String × List String)) (total : Nat) :
    ∀ (lines : List String) (st : ExtractState),
      st.progress = (List.range (st.i / 100000)).map (progressMark total) →
      (List.foldl (extractStep headers lang lc uni sem total) st lines).progress
        = (List.range ((List.foldl (extractStep headers lang lc uni sem total) st lines).i
            / 100000)).map (progressMark total)
  | [], _, h => h
  | ln :: rest, st, h => by
    rw [List.foldl_cons]
    exact foldl_extractStep_progress headers lang lc uni sem total rest _
      (extractStep_progress_inv headers lang lc uni sem total st ln h)

theorem extractStep_count_inv (headers : List String) (lang : String)
    (lc uni : Bool) (sem : List (String × List String)) (total : Nat)
    (st : ExtractState) (ln : String)
    (h : st.err = none → st.i = st.records.length) :
    (extractStep headers lang lc uni sem total st ln).err = none →
      (extractStep headers lang lc uni sem total st ln).i
        = (extractStep headers lang lc uni sem total st ln).records.length := by
  cases hse : st.err with
  | some e =>
    rw [extractStep_of_err headers lang lc uni sem total st ln (by rw [hse]; rfl)]
    intro habs
    exact absurd (hse ▸ habs) (by simp)
  | none =>
    cases hit : iterStep headers lang ln with
    | error e =>
      rw [extractStep_iter_error headers lang lc uni sem total st ln e hse hit]
      intro habs
      exact absurd habs (by simp)
    | ok o =>
      cases o with
      | none =>
        rw [extractStep_skip headers lang lc uni sem total st ln hit]
        exact h
      | some content =>
        cases hec : extractContent lc uni sem content with
        | error e =>
          rw [extractStep_yield_error headers lang lc uni sem total st ln content e hse hit hec]
          intro habs
          exact absurd habs (by simp)
        | ok r =>
          rw [extractStep_yield_ok headers lang lc uni sem total st ln content r hse hit hec]
          intro _
          show st.i + 1 = (st.records ++ [r]).length
          rw [List.length_append, List.length_singleton, h hse]

theorem foldl_extractStep_count (headers : List String) (lang : String)
    (lc uni : Bool) (sem : List (String × List String)) (total : Nat) :
    ∀ (lines : List String) (st : ExtractState),
      (st.err = none → st.i = st.records.length) →
      (List.foldl (extractStep headers lang lc uni sem total) st lines).err = none →
      (List.foldl (extractStep headers lang lc uni sem total) st lines).i
        = (List.foldl (extractStep headers lang lc uni sem total) st lines).records.length
  | [], _, h => h
  | ln :: rest, st, h => by
    rw [List.foldl_cons]
    exact foldl_extractStep_count headers lang lc uni sem total rest _
      (extractStep_count_inv headers lang lc uni sem total st ln h)

/-- C7(amended): the counter behind the progress report counts the rows
yielded past the language filter, not all rows consumed from the source
file: a status line is printed exactly at every 100,000th yielded row, its
completion fraction being the yielded count over the precomputed total line
count; with no abort the counter equals the number of records yielded. -/
theorem progress_every_100000_yielded_rows (headers : List String) (lang : String)
    (lc uni : Bool) (sem : List (String × List String)) (lines : List String) :
    (extractRows headers lang lc uni sem lines).progress
      = (List.range ((extractRows headers lang lc uni sem lines).i / 100000)).map
          (progressMark (countlines lines))
    ∧ ((extractRows headers lang lc uni sem lines).rowError = none →
        (extractRows headers lang lc uni sem lines).i
          = (extractRows headers lang lc uni sem lines).records.length) := by
  constructor
  · rw [extractRows_progress, extractRows_i]
    exact foldl_extractStep_progress headers lang lc uni sem (countlines lines) lines
      ⟨0, [], [], none⟩ rfl
  · intro hok
    rw [extractRows_i, extractRows_records]
    exact foldl_extractStep_count headers lang lc uni sem (countlines lines) lines
      ⟨0, [], [], none⟩ (fun _ => rfl)
      ((extractRows_rowError_none_iff headers lang lc uni sem lines).mp hok)

/-- Witness for C7's amended statement on a small run with one yielded
row. -/
theorem progress_every_100000_yielded_rows_witness :
    (extractRows ["lat", "str", "cui", "sab", "tty", "ispref"] "ENG" false false
        [("C0001", ["T001"])] ["ENG|aspirin|C0001|MTH|PN|Y"]).rowError = none
    ∧ (extractRows ["lat", "str", "cui", "sab", "tty", "ispref"] "ENG" false false
        [("C0001", ["T001"])] ["ENG|aspirin|C0001|MTH|PN|Y"]).i
      = (extractRows ["lat", "str", "cui", "sab", "tty", "ispref"] "ENG" false false
          [("C0001", ["T001"])] ["ENG|aspirin|C0001|MTH|PN|Y"]).records.length :=
  ⟨by decide,
    (progress_every_100000_yielded_rows ["lat", "str", "cui", "sab", "tty", "ispref"]
      "ENG" false false [("C0001", ["T001"])] ["ENG|aspirin|C0001|MTH|PN|Y"]).2
      (by decide)⟩

/-- C7 counterexample: a vocabulary file of 100,000 rows, none of which
matches the language filter.  All 100,000 rows are consumed from the source
file, yet no progress status line is printed, refuting that a line is
emitted once every 100,000 consumed rows: the code counts yielded rows. -/
theorem progress_counts_consumed_rows_refuted :
    (List.replicate 100000 "SPA|aspirina|C0002|MTH|PN|Y").length = 100000
    ∧ (extractRows ["lat", "str", "cui", "sab", "tty", "ispref"] "ENG" false false []
        (List.replicate 100000 "SPA|aspirina|C0002|MTH|PN|Y")).progress = []
    ∧ (extractRows ["lat", "str", "cui", "sab", "tty", "ispref"] "ENG" false false []
        (List.replicate 100000 "SPA|aspirina|C0002|MTH|PN|Y")).i = 0 := by
  have hskip : iterStep ["lat", "str", "cui", "sab", "tty", "ispref"] "ENG"
      "SPA|aspirina|C0002|MTH|PN|Y" = .ok none := by rfl
  have hfold := foldl_extractStep_replicate_skip
    ["lat", "str", "cui", "sab", "tty", "ispref"] "ENG" false false []
    (countlines (List.replicate 100000 "SPA|aspirina|C0002|MTH|PN|Y"))
    "SPA|aspirina|C0002|MTH|PN|Y" hskip 100000 ⟨0, [], [], none⟩
  refine ⟨by rw [List.length_replicate], ?_, ?_⟩
  · rw [extractRows_progress, hfold]
  · rw [extractRows_i, hfold]

/-- C8(amended): a source line with fewer pipe-separated fields than the
schema is silently tolerated via truncated field assignment provided every
field the code actually reads survived the truncation: the loader processes
such a line when `cui` and `sty` are present, the vocabulary iterator
silently skips such a line whose present `lat` differs from the filter, and
the extractor fully processes such a line whose present `lat` matches when
all consumed fields and the identifier join are available.  A short line
missing an accessed field instead raises a KeyError and aborts. -/
theorem short_line_tolerated_when_accessed_fields_present
    (styHeaders : List String) (m : List (String × List String)) (styLn : String)
    (c sv : String)
    (_hshort1 : (pyFields styLn).length < styHeaders.length)
    (hc : pyGet (pyDictOfLine styHeaders styLn) "cui" = some c)
    (hs : pyGet (pyDictOfLine styHeaders styLn) "sty" = some sv)
    (conHeaders : List String) (lang : String) (skipLn : String) (l0 : String)
    (_hshort2 : (pyFields skipLn).length < conHeaders.length)
    (hl : pyGet (pyDictOfLine conHeaders skipLn) "lat" = some l0)
    (hne : l0 ≠ lang)
    (lc uni : Bool) (sem : List (String × List String)) (procLn : String)
    (s0 cui sab0 tty0 pf0 : String) (stys : List String)
    (_hshort3 : (pyFields procLn).length < conHeaders.length)
    (hl2 : pyGet (pyDictOfLine conHeaders procLn) "lat" = some lang)
    (hstr : pyGet (pyDictOfLine conHeaders procLn) "str" = some s0)
    (hcui : pyGet (pyDictOfLine conHeaders procLn) "cui" = some cui)
    (hsab : pyGet (pyDictOfLine conHeaders procLn) "sab" = some sab0)
    (htty : pyGet (pyDictOfLine conHeaders procLn) "tty" = some tty0)
    (hpf : pyGet (pyDictOfLine conHeaders procLn) "ispref" = some pf0)
    (hsem : assocLookup sem cui = some stys) :
    styStep styHeaders m styLn = .ok (assocAppend m c sv)
    ∧ iterStep conHeaders lang skipLn = .ok none
    ∧ iterStep conHeaders lang procLn = .ok (some (pyDictOfLine conHeaders procLn))
    ∧ extractContent lc uni sem (pyDictOfLine conHeaders procLn)
        = .ok ⟨termText lc uni s0, cui, stys, sab0, tty0, if pf0 = "Y" then 1 else 0⟩ := by
  refine ⟨?_, ?_, ?_, ?_⟩
  · unfold styStep
    rw [hc]
    dsimp only
    rw [hs]
  · unfold iterStep
    rw [hl]
    dsimp only
    rw [if_neg hne]
  · unfold iterStep
    rw [hl2]
    dsimp only
    rw [if_pos rfl]
  · simp only [extractContent, hstr, hcui, hsab, htty, hpf, hsem]

/-- Witness for C8's amended statement: short lines under wider schemas in
all three positions. -/
theorem short_line_tolerated_when_accessed_fields_present_witness :
    ((pyFields "C0001|T001").length
        < (["cui", "sty", "hier", "desc", "sid", "num"] : List String).length
      ∧ (pyFields "SPA").length
        < (["lat", "str", "cui", "sab", "tty", "ispref", "cvf"] : List String).length
      ∧ (pyFields "ENG|aspirin|C0001|MTH|PN|Y").length
        < (["lat", "str", "cui", "sab", "tty", "ispref", "cvf"] : List String).length)
    ∧ styStep ["cui", "sty", "hier", "desc", "sid", "num"] [] "C0001|T001"
        = .ok (assocAppend [] "C0001" "T001")
    ∧ iterStep ["lat", "str", "cui", "sab", "tty", "ispref", "cvf"] "ENG" "SPA"
        = .ok none
    ∧ iterStep ["lat", "str", "cui", "sab", "tty", "ispref", "cvf"] "ENG"
        "ENG|aspirin|C0001|MTH|PN|Y"
        = .ok (some (pyDictOfLine ["lat", "str", "cui", "sab", "tty", "ispref", "cvf"]
            "ENG|aspirin|C0001|MTH|PN|Y"))
    ∧ extractContent false false [("C0001", ["T001"])]
        (pyDictOfLine ["lat", "str", "cui", "sab", "tty", "ispref", "cvf"]
          "ENG|aspirin|C0001|MTH|PN|Y")
        = .ok ⟨termText false false "aspirin", "C0001", ["T001"], "MTH", "PN",
            if "Y" = "Y" then 1 else 0⟩ :=
  ⟨⟨by decide, by decide, by decide⟩,
    short_line_tolerated_when_accessed_fields_present
      ["cui", "sty", "hier", "desc", "sid", "num"] [] "C0001|T001" "C0001" "T001"
      (by decide) (by decide) (by decide)
      ["lat", "str", "cui", "sab", "tty", "ispref", "cvf"] "ENG" "SPA" "SPA"
      (by decide) (by decide) (by decide)
      false false [("C0001", ["T001"])] "ENG|aspirin|C0001|MTH|PN|Y"
      "aspirin" "C0001" "MTH" "PN" "Y" ["T001"]
      (by decide) (by decide) (by decide) (by decide) (by decide) (by decide) (by decide)
      (by decide)⟩

/-- C8 counterexample: the loader does not tolerate every short line.  A
one-field line under the six-field schema has fewer fields than the schema,
yet the run aborts with a KeyError on the missing `sty` field instead of
processing the line. -/
theorem short_line_tolerated_refuted :
    (pyFields "C0001").length
        < (["cui", "sty", "hier", "desc", "sid", "num"] : List String).length
    ∧ get_semantic_types ["cui", "sty", "hier", "desc", "sid", "num"] ["C0001"]
        = .error "KeyError: sty" :=
  ⟨by decide, by rfl⟩

/-- C9(amended): driving the extractor to exhaustion over a vocabulary file
with at least one line and no row abort terminates normally and emits the
final summary line; over an empty file the summary computation divides the
row count by the zero total line count and raises ZeroDivisionError. -/
theorem summary_emitted_for_nonempty_input (headers : List String) (lang : String)
    (lc uni : Bool) (sem : List (String × List String)) (lines : List String)
    (hne : lines ≠ [])
    (hok : (extractRows headers lang lc uni sem lines).rowError = none) :
    (extractRows headers lang lc uni sem lines).summaryEmitted = true
    ∧ (extractRows headers lang lc uni sem lines).summaryError = none := by
  have herr := (extractRows_rowError_none_iff headers lang lc uni sem lines).mp hok
  have hlen : countlines lines ≠ 0 := fun h0 => hne (List.length_eq_zero.mp h0)
  have hres : extractRows headers lang lc uni sem lines
      = ⟨(List.foldl (extractStep headers lang lc uni sem (countlines lines))
            ⟨0, [], [], none⟩ lines).i,
         (List.foldl (extractStep headers lang lc uni sem (countlines lines))
            ⟨0, [], [], none⟩ lines).records,
         (List.foldl (extractStep headers lang lc uni sem (countlines lines))
            ⟨0, [], [], none⟩ lines).progress,
         none, true, none⟩ := by
    unfold extractRows
    dsimp only
    rw [if_neg (by rw [herr]; simp), if_neg hlen]
  rw [hres]
  exact ⟨rfl, rfl⟩

/-- Witness for C9's amended statement on a one-line vocabulary file. -/
theorem summary_emitted_for_nonempty_input_witness :
    ((["ENG|aspirin|C0001|MTH|PN|Y"] : List String) ≠ []
      ∧ (extractRows ["lat", "str", "cui", "sab", "tty", "ispref"] "ENG" false false
          [("C0001", ["T001"])] ["ENG|aspirin|C0001|MTH|PN|Y"]).rowError = none)
    ∧ (extractRows ["lat", "str", "cui", "sab", "tty", "ispref"] "ENG" false false
        [("C0001", ["T001"])] ["ENG|aspirin|C0001|MTH|PN|Y"]).summaryEmitted = true
    ∧ (extractRows ["lat", "str", "cui", "sab", "tty", "ispref"] "ENG" false false
        [("C0001", ["T001"])] ["ENG|aspirin|C0001|MTH|PN|Y"]).summaryError = none :=
  ⟨⟨by decide, by decide⟩,
    summary_emitted_for_nonempty_input ["lat", "str", "cui", "sab", "tty", "ispref"]
      "ENG" false false [("C0001", ["T001"])] ["ENG|aspirin|C0001|MTH|PN|Y"]
      (by decide) (by decide)⟩

/-- C9 counterexample: on an empty vocabulary file the run does not emit the
summary: the completion-fraction division hits the zero precomputed total
line count and raises ZeroDivisionError, although no row failed. -/
theorem empty_file_summary_refuted :
    (extractRows ["lat", "str", "cui", "sab", "tty", "ispref"] "ENG" false false
        [] []).summaryEmitted = false
    ∧ (extractRows ["lat", "str", "cui", "sab", "tty", "ispref"] "ENG" false false
        [] []).summaryError = some "ZeroDivisionError"
    ∧ (extractRows ["lat", "str", "cui", "sab", "tty", "ispref"] "ENG" false false
        [] []).rowError = none :=
  ⟨by decide, by decide, by decide⟩

end QuickUMLS
